import Mathlib

/-!
# Verification of the paycallendar cash-plan projection engine

A shallow embedding of `src/lib/cashflow.ts` and `src/lib/settings.ts`
(the cash-plan projection engine of the repository) together with proofs
of the specification's claims about it.

Modelling conventions:
* Calendar dates (the engine works on ISO `YYYY-MM-DD` day keys, obtained
  with `toDateKey` = `formatISO(startOfDay(...))`) are triples
  `(year, month, day)` of naturals.  Comparison of ISO date strings is
  lexicographic comparison of the triples.  `date-fns` operations
  (`addDays`, `addMonths`, `startOfMonth`, `getDaysInMonth`) are
  reimplemented on triples with the Gregorian month lengths.
* JS `number` amounts are rationals `ℚ`; `Number(x.toFixed(2))` is
  `toFixed2` below (round half away from zero at two decimals; the exact
  behaviour of `toFixed` on ties is irrelevant because a tie requires the
  non-dyadic value `(2n+1)/200`, which no IEEE double equals).
  For the one claim whose content is the IEEE special values themselves
  (`currencyRate` and non-finite rates), a refined number type `JSNum`
  with `NaN`/`±Infinity` is used; the only operation the source performs
  on a candidate rate is `rate > 0`, which `JSNum.gtZero` models exactly.
* Nullable / optional TS fields are `Option` values; `null`, `undefined`
  and absent fields are all `none`.
* The engine reads the clock (`new Date()`) in several places within one
  run; the embedding passes the resulting day key as an explicit `today`
  parameter.
-/

/-! ## Calendar dates -/

/-- An ISO calendar day key `YYYY-MM-DD`, as produced by `toDateKey`. -/
structure Ymd where
  year : Nat
  month : Nat
  day : Nat
deriving DecidableEq, Repr

/-- Chronological (= ISO-string lexicographic) strict order on day keys. -/
def Ymd.ltb (a b : Ymd) : Bool :=
  decide (a.year < b.year) ||
    (a.year == b.year &&
      (decide (a.month < b.month) || (a.month == b.month && decide (a.day < b.day))))

/-- `date-fns` `isAfter a b`: `a` is strictly after `b`. -/
def isAfter (a b : Ymd) : Bool := Ymd.ltb b a

/-- Gregorian leap year (`date-fns` / JS `Date` calendar). -/
def isLeapYear (y : Nat) : Bool :=
  (y % 4 == 0 && y % 100 != 0) || y % 400 == 0

/-- `date-fns` `getDaysInMonth` for the month `m` of year `y`. -/
def daysInMonth (y m : Nat) : Nat :=
  if m = 2 then (if isLeapYear y then 29 else 28)
  else if m = 4 ∨ m = 6 ∨ m = 9 ∨ m = 11 then 30
  else 31

/-- The calendar day after `d` (`addDays(d, 1)` on a normalized date). -/
def nextDay (d : Ymd) : Ymd :=
  if d.day < daysInMonth d.year d.month then ⟨d.year, d.month, d.day + 1⟩
  else if d.month < 12 then ⟨d.year, d.month + 1, 1⟩
  else ⟨d.year + 1, 1, 1⟩

/-- `date-fns` `addDays` (non-negative counts, as the engine uses it). -/
def addDays (d : Ymd) : Nat → Ymd
  | 0 => d
  | n + 1 => nextDay (addDays d n)

/-- `date-fns` `startOfMonth`. -/
def startOfMonth (d : Ymd) : Ymd := ⟨d.year, d.month, 1⟩

/-- `date-fns` `addMonths(d, 1)`: the next month, the day-of-month clamped
to the target month's length. -/
def addMonths1 (d : Ymd) : Ymd :=
  if d.month < 12 then
    ⟨d.year, d.month + 1, min d.day (daysInMonth d.year (d.month + 1))⟩
  else
    ⟨d.year + 1, d.month - 11, min d.day (daysInMonth (d.year + 1) (d.month - 11))⟩

theorem daysInMonth_le (y m : Nat) : daysInMonth y m ≤ 31 := by
  unfold daysInMonth
  split
  · split <;> omega
  · split <;> omega

theorem daysInMonth_pos (y m : Nat) : 1 ≤ daysInMonth y m := by
  unfold daysInMonth
  split
  · split <;> omega
  · split <;> omega

theorem year_le_of_not_isAfter {a b : Ymd} (h : ¬ isAfter a b = true) :
    a.year ≤ b.year := by
  simp only [isAfter, Ymd.ltb, Bool.or_eq_true, Bool.and_eq_true, decide_eq_true_eq,
    beq_iff_eq] at h
  omega

/-! ## JS numbers and rounding -/

/-- `Number(q.toFixed(2))`: round to two decimal places, half away from
zero (ties cannot arise from IEEE doubles, see the header comment). -/
def toFixed2 (q : ℚ) : ℚ :=
  if q < 0 then -(((round (-q * 100) : ℤ) : ℚ) / 100)
  else ((round (q * 100) : ℤ) : ℚ) / 100

theorem round_mono {a b : ℚ} (h : a ≤ b) : round a ≤ round b := by
  rw [round_eq, round_eq]
  exact Int.floor_mono (by linarith)

theorem toFixed2_zero : toFixed2 0 = 0 := by
  simp [toFixed2]

theorem toFixed2_neg (q : ℚ) : toFixed2 (-q) = -toFixed2 q := by
  rcases lt_trichotomy q 0 with h | h | h
  · have h2 : ¬ (-q < 0) := by linarith
    simp only [toFixed2, if_pos h, if_neg h2, neg_neg]
  · subst h
    simp [toFixed2]
  · have h2 : -q < 0 := by linarith
    have h3 : ¬ (q < 0) := by linarith
    simp only [toFixed2, if_pos h2, if_neg h3, neg_neg]

theorem toFixed2_mono {a b : ℚ} (h : a ≤ b) : toFixed2 a ≤ toFixed2 b := by
  unfold toFixed2
  by_cases ha : a < 0 <;> by_cases hb : b < 0
  · simp only [if_pos ha, if_pos hb]
    have h1 : round (-b * 100) ≤ round (-a * 100) := round_mono (by linarith)
    simp only [neg_le_neg_iff]
    exact div_le_div_of_nonneg_right (by exact_mod_cast h1) (by norm_num)
  · simp only [if_pos ha, if_neg hb]
    have h1 : round (-a * 100) ≥ 0 := by
      have := round_mono (a := 0) (b := -a * 100) (by nlinarith)
      simpa using this
    have h2 : round (b * 100) ≥ 0 := by
      have := round_mono (a := 0) (b := b * 100) (by nlinarith [not_lt.mp hb])
      simpa using this
    have l1 : -(((round (-a * 100) : ℤ) : ℚ) / 100) ≤ 0 := by
      apply neg_nonpos_of_nonneg
      apply div_nonneg _ (by norm_num)
      exact_mod_cast h1
    have l2 : (0 : ℚ) ≤ ((round (b * 100) : ℤ) : ℚ) / 100 := by
      apply div_nonneg _ (by norm_num)
      exact_mod_cast h2
    linarith
  · exact absurd (lt_of_le_of_lt h hb) ha
  · simp only [if_neg ha, if_neg hb]
    have : round (a * 100) ≤ round (b * 100) := round_mono (by linarith)
    exact div_le_div_of_nonneg_right (by exact_mod_cast this) (by norm_num)

theorem toFixed2_nonneg {q : ℚ} (h : 0 ≤ q) : 0 ≤ toFixed2 q := by
  have := toFixed2_mono h
  rwa [toFixed2_zero] at this

theorem toFixed2_nonpos {q : ℚ} (h : q ≤ 0) : toFixed2 q ≤ 0 := by
  have := toFixed2_mono h
  rwa [toFixed2_zero] at this

theorem toFixed2_int_div (k : ℤ) : toFixed2 ((k : ℚ) / 100) = (k : ℚ) / 100 := by
  rcases lt_or_le k 0 with hk | hk
  · have hq : ((k : ℚ) / 100) < 0 := by
      apply div_neg_of_neg_of_pos _ (by norm_num)
      exact_mod_cast hk
    have : -((k : ℚ) / 100) * 100 = ((-k : ℤ) : ℚ) := by push_cast; ring
    rw [toFixed2, if_pos hq, this, round_intCast]
    push_cast
    ring
  · have hq : ¬ ((k : ℚ) / 100 < 0) := by
      push_neg
      apply div_nonneg _ (by norm_num)
      exact_mod_cast hk
    have : ((k : ℚ) / 100) * 100 = ((k : ℤ) : ℚ) := by ring
    rw [toFixed2, if_neg hq, this, round_intCast]

theorem toFixed2_exists_int (q : ℚ) : ∃ k : ℤ, toFixed2 q = (k : ℚ) / 100 := by
  unfold toFixed2
  split
  · exact ⟨-(round (-q * 100)), by rw [Int.cast_neg, neg_div]⟩
  · exact ⟨round (q * 100), rfl⟩

theorem toFixed2_idem (q : ℚ) : toFixed2 (toFixed2 q) = toFixed2 q := by
  obtain ⟨k, hk⟩ := toFixed2_exists_int q
  rw [hk, toFixed2_int_div]

/-! ## Data model (`src/types/finance.ts`) -/

inductive Currency where
  | RUB
  | CNY
deriving DecidableEq, Repr

structure AppSettings where
  cnyRate : ℚ
deriving DecidableEq, Repr

/-- `DEFAULT_SETTINGS` of `src/lib/settings.ts`. -/
def DEFAULT_SETTINGS : AppSettings := ⟨1⟩

inductive CashEventType where
  | opening
  | inflow
  | outflow
deriving DecidableEq, Repr

structure CashEvent where
  date : Ymd
  type : CashEventType
  amount : ℚ
  description : String
  source : Option String
deriving DecidableEq, Repr

structure Account where
  id : String
  name : String
  balance : Option ℚ
deriving DecidableEq, Repr

inductive IncomingKind where
  | fixed
  | planned
deriving DecidableEq, Repr

structure IncomingPayment where
  id : String
  counterparty : String
  amount : Option ℚ
  expected_date : Ymd
  kind : IncomingKind
  notes : Option String
deriving DecidableEq, Repr

/-- `SupplierOrder`.  `deposit_paid` is absent from the TS interface but
read by the engine via `Boolean(order.deposit_paid)` (the database row
carries it), hence `Option Bool`; `deposit_date` is guarded with
`order.deposit_date || new Date()`, hence `Option Ymd`. -/
structure SupplierOrder where
  id : String
  supplier_id : Option String
  supplier_name : Option String
  title : String
  total_amount : Option ℚ
  deposit_amount : Option ℚ
  deposit_paid : Option Bool
  deposit_date : Option Ymd
  due_date : Ymd
  currency : Option Currency
  description : Option String
deriving DecidableEq, Repr

structure PlannedExpense where
  id : String
  title : String
  amount : Option ℚ
  amount_primary : Option ℚ
  amount_secondary : Option ℚ
  day_primary : Option Int
  day_secondary : Option Int
deriving DecidableEq, Repr

structure DailyStat where
  date : Ymd
  balance : ℚ
  events : List CashEvent
deriving DecidableEq, Repr

structure CashPlanResult where
  openingBalance : ℚ
  daily : List DailyStat
  minBalance : ℚ
  cashGap : ℚ
deriving DecidableEq, Repr

/-! ## `src/lib/settings.ts`: currency-rate resolution -/

/-- `currencyRate` of `src/lib/settings.ts`, amounts as rationals:
`const rate = currency === 'CNY' ? settings?.cnyRate ?? DEFAULT_SETTINGS.cnyRate : 1;
 return rate > 0 ? rate : 1;` -/
def currencyRate (currency : Currency) (settings : Option AppSettings) : ℚ :=
  let rate : ℚ :=
    if currency = Currency.CNY then
      (match settings with
       | some s => s.cnyRate
       | none => DEFAULT_SETTINGS.cnyRate)
    else 1
  if rate > 0 then rate else 1

/-- A JS `number` with its IEEE special values, for the one claim whose
content is non-finite rates.  The engine compares a candidate rate only
with `rate > 0`, modelled by `gtZero`. -/
inductive JSNum where
  | nan
  | posInf
  | negInf
  | val (q : ℚ)
deriving DecidableEq, Repr

/-- JS `x > 0` on a `JSNum` (`NaN > 0` is `false`, `Infinity > 0` is `true`). -/
def JSNum.gtZero : JSNum → Bool
  | JSNum.nan => false
  | JSNum.posInf => true
  | JSNum.negInf => false
  | JSNum.val q => decide (0 < q)

/-- JS `Number.isFinite`. -/
def JSNum.isFinite : JSNum → Bool
  | JSNum.val _ => true
  | _ => false

structure JSAppSettings where
  cnyRate : JSNum
deriving DecidableEq, Repr

/-- `currencyRate` of `src/lib/settings.ts` again, at IEEE fidelity: the
same two source lines with the rate as a `JSNum`. -/
def currencyRateJS (currency : Currency) (settings : Option JSAppSettings) : JSNum :=
  let rate : JSNum :=
    if currency = Currency.CNY then
      (match settings with
       | some s => s.cnyRate
       | none => JSNum.val DEFAULT_SETTINGS.cnyRate)
    else JSNum.val 1
  if rate.gtZero then rate else JSNum.val 1

/-! ## `src/lib/cashflow.ts`: input normalization -/

/-- `normalizeAmount`: `if (!value) return 0; ...` — `null` and `0` (the
falsy numeric inputs) give 0, any other number is itself.  (String inputs
and `NaN`, which the source also coerces to 0, live in the out-of-scope
parsing layer.) -/
def normalizeAmount : Option ℚ → ℚ
  | none => 0
  | some v => if v = 0 then 0 else v

/-- `normalizeDay`: `null`/`undefined` give `null`; an integer day is kept
only when it lies in `1..31`. -/
def normalizeDay : Option Int → Option Nat
  | none => none
  | some v => if 1 ≤ v ∧ v ≤ 31 then some v.toNat else none

/-- `resolveMonthlyDate`: clamp `day` to the month of `monthStart` and
return that calendar date (`result.setDate(safeDay)` keeps the month for
`1 ≤ safeDay ≤ daysInMonth`). -/
def resolveMonthlyDate (monthStart : Ymd) (day : Nat) : Ymd :=
  let daysInM := daysInMonth monthStart.year monthStart.month
  let safeDay := min day daysInM
  ⟨monthStart.year, monthStart.month, safeDay⟩

/-! ## Event collector (`collectEvents`) -/

/-- The body of the `inflows.forEach` loop of `collectEvents`: `none` when
the inflow is skipped (planned and already past), otherwise the emitted
inflow event. -/
def inflowEvent (today : Ymd) (inflow : IncomingPayment) : Option CashEvent :=
  let expectedDate := inflow.expected_date
  if inflow.kind = IncomingKind.planned ∧ Ymd.ltb expectedDate today then none
  else
    some
      { amount := normalizeAmount inflow.amount
        date := expectedDate
        description :=
          inflow.counterparty ++ " (" ++
            (if inflow.kind = IncomingKind.fixed then "фиксированный" else "плановый") ++ ")"
        type := CashEventType.inflow
        source := none }

/-- `order.supplier_name ? \x20${order.supplier_name} : ''` (JS string
truthiness: `null`, `undefined` and `""` give the empty suffix). -/
def supplierTag (supplier_name : Option String) : String :=
  match supplier_name with
  | some n => if n = "" then "" else " " ++ n
  | none => ""

/-- The body of the `orders.forEach` loop of `collectEvents`: the deposit
outflow (only if unpaid and positive) followed by the remainder outflow
(only if positive). -/
def orderEvents (today : Ymd) (rates : Currency → ℚ) (order : SupplierOrder) :
    List CashEvent :=
  let currency := order.currency.getD Currency.RUB
  let rate := rates currency
  let deposit := normalizeAmount order.deposit_amount * rate
  let remainder := normalizeAmount order.total_amount * rate - deposit
  let depositPaid := order.deposit_paid.getD false
  (if 0 < deposit ∧ depositPaid = false then
    [{ amount := -deposit
       date := order.deposit_date.getD today
       description := order.title ++ " — аванс поставщику" ++ supplierTag order.supplier_name
       type := CashEventType.outflow
       source := some order.id }]
   else []) ++
  (if 0 < remainder then
    [{ amount := -remainder
       date := order.due_date
       description := order.title ++ " — финальный платёж" ++ supplierTag order.supplier_name
       type := CashEventType.outflow
       source := some order.id }]
   else [])

/-- `collectEvents`: the inflow events followed by the order events (the
source pushes into one list, inflows first).  `accounts` is taken (and
ignored) exactly as in the source; the rate table `rates[currency] ?? 1`
is total on `Currency`, so the `?? 1` fallback is unreachable. -/
def collectEvents (today : Ymd) (accounts : List Account)
    (inflows : List IncomingPayment) (orders : List SupplierOrder)
    (rates : Currency → ℚ) : List CashEvent :=
  inflows.filterMap (inflowEvent today) ++ orders.flatMap (orderEvents today rates)

/-! ## Monthly expense expander (`collectExpenseEvents`) -/

/-- The split-amount reconciliation of `collectExpenseEvents`
(lines 112–137): the four sequential `if` assignments to
`primaryAmount` / `secondaryAmount` in SSA form.  `hasSplit` is
`typeof secondaryDay === 'number'`. -/
def resolveAmounts (expense : PlannedExpense) (hasSplit : Bool) :
    Option ℚ × Option ℚ :=
  let totalAmount := normalizeAmount expense.amount
  let primary0 : Option ℚ :=
    if expense.amount_primary.isSome then some (normalizeAmount expense.amount_primary) else none
  let secondary0 : Option ℚ :=
    if expense.amount_secondary.isSome then some (normalizeAmount expense.amount_secondary) else none
  if hasSplit then
    let secondary1 :=
      if primary0.isSome ∧ secondary0 = none then some (totalAmount - primary0.getD 0)
      else secondary0
    let primary1 :=
      if secondary1.isSome ∧ primary0 = none then some (totalAmount - secondary1.getD 0)
      else primary0
    let primary2 := if primary1 = none then some totalAmount else primary1
    let secondary2 :=
      if secondary1 = none then some (totalAmount - primary2.getD 0) else secondary1
    (primary2, secondary2)
  else
    (if primary0 = none then some totalAmount else primary0, secondary0)

/-- JS falsiness of a nullable amount: `null` and `0` are falsy
(`if (!primaryAmount && !secondaryAmount) return;`). -/
def optFalsy (x : Option ℚ) : Bool :=
  match x with
  | none => true
  | some q => q == 0

/-- One iteration of the month loop of `collectExpenseEvents`: the events
the expense emits in the month of `cursor` (the primary-day event, then
the secondary-day event), each subject to the `[today, horizonLimit]`
window and amount positivity. -/
def expensePerMonth (expense : PlannedExpense) (today horizonLimit : Ymd)
    (primaryDay : Nat) (secondaryDay : Option Nat)
    (primaryAmount secondaryAmount : Option ℚ) (hasSplit : Bool)
    (cursor : Ymd) : List CashEvent :=
  let hasSecondaryEvent :=
    hasSplit && secondaryDay.getD 0 != 0 && decide (0 < secondaryAmount.getD 0)
  let primaryDate := resolveMonthlyDate cursor primaryDay
  (if ¬ isAfter today primaryDate = true ∧ ¬ isAfter primaryDate horizonLimit = true ∧
      0 < primaryAmount.getD 0 then
    [{ amount := -(primaryAmount.getD 0)
       date := primaryDate
       description := expense.title ++ " — плановый расход" ++
         (if hasSecondaryEvent then " (часть 1/2)" else "")
       type := CashEventType.outflow
       source := some expense.id }]
   else []) ++
  (if hasSecondaryEvent then
    (let secondaryDate := resolveMonthlyDate cursor (secondaryDay.getD 0)
     if ¬ isAfter today secondaryDate = true ∧ ¬ isAfter secondaryDate horizonLimit = true then
       [{ amount := -(secondaryAmount.getD 0)
          date := secondaryDate
          description := expense.title ++ " — плановый расход (часть 2/2)"
          type := CashEventType.outflow
          source := some expense.id }]
     else [])
   else [])

/-- The `while (!isAfter(cursor, lastMonth))` loop of
`collectExpenseEvents`, advancing by `addMonths(cursor, 1)`. -/
def expenseLoop (expense : PlannedExpense) (today horizonLimit : Ymd)
    (primaryDay : Nat) (secondaryDay : Option Nat)
    (primaryAmount secondaryAmount : Option ℚ) (hasSplit : Bool)
    (lastMonth cursor : Ymd) : List CashEvent :=
  if h : isAfter cursor lastMonth then []
  else
    expensePerMonth expense today horizonLimit primaryDay secondaryDay
      primaryAmount secondaryAmount hasSplit cursor ++
    expenseLoop expense today horizonLimit primaryDay secondaryDay
      primaryAmount secondaryAmount hasSplit lastMonth (addMonths1 cursor)
termination_by (lastMonth.year + 1 - cursor.year) * 14 + (13 - min cursor.month 13)
decreasing_by
  have hy := year_le_of_not_isAfter h
  simp only [addMonths1]
  split <;> (dsimp only; omega)

/-- The sequence of month cursors the loop visits, for stating claims
about "every month in the projection window". -/
def monthSeq (lastMonth cursor : Ymd) : List Ymd :=
  if h : isAfter cursor lastMonth then []
  else cursor :: monthSeq lastMonth (addMonths1 cursor)
termination_by (lastMonth.year + 1 - cursor.year) * 14 + (13 - min cursor.month 13)
decreasing_by
  have hy := year_le_of_not_isAfter h
  simp only [addMonths1]
  split <;> (dsimp only; omega)

/-- The body of the `expenses.forEach` of `collectExpenseEvents`: skip on
an invalid primary day, resolve the split amounts, skip when both resolve
falsy, else run the month loop. -/
def expenseEvents (today horizonLimit firstMonth lastMonth : Ymd)
    (expense : PlannedExpense) : List CashEvent :=
  match normalizeDay expense.day_primary with
  | none => []
  | some primaryDay =>
    let secondaryDay := normalizeDay expense.day_secondary
    let hasSplit := secondaryDay.isSome
    let resolved := resolveAmounts expense hasSplit
    if optFalsy resolved.1 ∧ optFalsy resolved.2 then []
    else
      expenseLoop expense today horizonLimit primaryDay secondaryDay
        resolved.1 resolved.2 hasSplit lastMonth firstMonth

/-- `collectExpenseEvents`. -/
def collectExpenseEvents (today : Ymd) (expenses : List PlannedExpense)
    (horizonDays : Nat) : List CashEvent :=
  if expenses.isEmpty then []
  else
    let horizonLimit := addDays today horizonDays
    let firstMonth := startOfMonth today
    let lastMonth := startOfMonth horizonLimit
    expenses.flatMap (expenseEvents today horizonLimit firstMonth lastMonth)

/-! ## Plan builder (`buildCashPlan`) -/

/-- The sort comparator of `buildCashPlan`:
`(a, b) => (a.date > b.date ? 1 : -1)`.  It never returns 0, so it is not
a consistent comparison function in the sense of ECMAScript 23.1.3.30
whenever two events share a date. -/
def jsSortCompare (a b : CashEvent) : Int :=
  if Ymd.ltb b.date a.date then 1 else -1

/-- The merged, date-sorted event list of `buildCashPlan`.  Because the
source comparator is inconsistent on equal dates (see `jsSortCompare`),
ECMAScript leaves the order of equal-date events implementation-defined;
the model uses a stable date-ascending sort, and every property proved
below is independent of the order of equal-date events. -/
def planEvents (today : Ymd) (accounts : List Account)
    (inflows : List IncomingPayment) (orders : List SupplierOrder)
    (expenses : List PlannedExpense) (settings : Option AppSettings)
    (horizonDays : Nat) : List CashEvent :=
  let rates : Currency → ℚ := fun c =>
    match c with
    | Currency.RUB => 1
    | Currency.CNY => currencyRate Currency.CNY settings
  (collectEvents today accounts inflows orders rates ++
      collectExpenseEvents today expenses horizonDays).mergeSort
    (fun a b => !Ymd.ltb b.date a.date)

/-- `accounts.reduce((sum, account) => sum + normalizeAmount(account.balance), 0)`. -/
def openingBalanceOf (accounts : List Account) : ℚ :=
  accounts.foldl (fun sum account => sum + normalizeAmount account.balance) 0

/-- The day-by-day loop of `buildCashPlan` (lines 215–233): walks from
`cursor` to `endDate` inclusive, applying each day's events to the running
balance, tracking the running minimum, and materializing a `DailyStat`
only for days with events.  Returns the daily list and the final minimum. -/
def planWalk (events : List CashEvent) (endDate cursor : Ymd)
    (balance minBalance : ℚ) : List DailyStat × ℚ :=
  if h : isAfter cursor endDate then ([], minBalance)
  else
    let todaysEvents := events.filter (fun event => event.date == cursor)
    let balance2 := todaysEvents.foldl (fun b event => b + event.amount) balance
    let minBalance2 := min minBalance balance2
    let rest := planWalk events endDate (nextDay cursor) balance2 minBalance2
    if todaysEvents.length > 0 then
      ({ date := cursor, balance := toFixed2 balance2, events := todaysEvents } :: rest.1,
        rest.2)
    else rest
termination_by
  ((endDate.year + 1 - cursor.year) * 14 + (13 - min cursor.month 13)) * 33 +
    (32 - min cursor.day 32)
decreasing_by
  have hy := year_le_of_not_isAfter h
  have hdim := daysInMonth_le cursor.year cursor.month
  have hdp := daysInMonth_pos cursor.year cursor.month
  simp only [nextDay]
  split
  · dsimp only; omega
  · split <;> (dsimp only; omega)

/-- `buildCashPlan`. -/
def buildCashPlan (today : Ymd) (accounts : List Account)
    (inflows : List IncomingPayment) (orders : List SupplierOrder)
    (expenses : List PlannedExpense) (settings : Option AppSettings)
    (horizonDays : Nat) : CashPlanResult :=
  let events := planEvents today accounts inflows orders expenses settings horizonDays
  let openingBalance := openingBalanceOf accounts
  match events with
  | [] =>
    let normalizedOpening := toFixed2 openingBalance
    { openingBalance := normalizedOpening
      daily := []
      minBalance := normalizedOpening
      cashGap := if normalizedOpening < 0 then toFixed2 (-normalizedOpening) else 0 }
  | e0 :: _ =>
    let firstDate := e0.date
    let lastEventDate := (events.getLastD e0).date
    let horizonLimit := addDays today horizonDays
    let endDate := if isAfter lastEventDate horizonLimit then horizonLimit else lastEventDate
    let result := planWalk events endDate firstDate openingBalance openingBalance
    { openingBalance := toFixed2 openingBalance
      daily := result.1
      minBalance := toFixed2 result.2
      cashGap := if result.2 < 0 then toFixed2 (-result.2) else 0 }

/-! ## Query helpers -/

/-- `projectBalanceOnDate`: `null` on an empty daily list, else the
first `DailyStat` with the target date, else the last `DailyStat`. -/
def projectBalanceOnDate (plan : CashPlanResult) (targetDate : Ymd) : Option ℚ :=
  if plan.daily.isEmpty then none
  else
    match plan.daily.find? (fun day => day.date == targetDate) with
    | some relevantDay => some relevantDay.balance
    | none => plan.daily.getLast?.map (fun relevantDay => relevantDay.balance)

/-! ## Helper lemmas -/

/-- The shape shared by both `cashGap` computations of `buildCashPlan`:
`m < 0 ? round2(-m) : 0` is non-negative, and zero exactly when the
rounded `m` is non-negative. -/
theorem cashGap_form (m : ℚ) :
    0 ≤ (if m < 0 then toFixed2 (-m) else 0) ∧
      ((if m < 0 then toFixed2 (-m) else 0) = 0 ↔ 0 ≤ toFixed2 m) := by
  by_cases hm : m < 0
  · simp only [if_pos hm]
    have hle : toFixed2 m ≤ 0 := toFixed2_nonpos (le_of_lt hm)
    constructor
    · exact toFixed2_nonneg (by linarith)
    · rw [toFixed2_neg]
      constructor
      · intro h
        exact le_of_eq (neg_eq_zero.mp h).symm
      · intro h
        have h0 : toFixed2 m = 0 := le_antisymm hle h
        rw [h0, neg_zero]
  · simp only [if_neg hm]
    push_neg at hm
    refine ⟨le_refl 0, ?_⟩
    simp [toFixed2_nonneg hm]

/-- In the empty-event branch the `cashGap` equals the claim's
`round2(max(0, -openingBalance))`. -/
theorem gap_empty_form (op : ℚ) :
    (if toFixed2 op < 0 then toFixed2 (-(toFixed2 op)) else 0) = toFixed2 (max 0 (-op)) := by
  rcases le_or_lt 0 op with hop | hop
  · rw [if_neg (not_lt.mpr (toFixed2_nonneg hop)), max_eq_left (by linarith), toFixed2_zero]
  · rw [max_eq_right (by linarith)]
    by_cases h2 : toFixed2 op < 0
    · rw [if_pos h2, toFixed2_neg, toFixed2_idem, toFixed2_neg]
    · rw [if_neg h2]
      have h0 : toFixed2 op = 0 :=
        le_antisymm (toFixed2_nonpos (le_of_lt hop)) (not_lt.mp h2)
      rw [toFixed2_neg, h0, neg_zero]

/-- Left cancellation for string append: distinct suffixes stay distinct. -/
theorem append_left_ne (t : String) {a b : String} (h : ¬ a.data = b.data) :
    ¬ (t ++ a = t ++ b) := by
  intro he
  apply h
  have hd := congrArg String.data he
  simp only [String.data_append] at hd
  exact List.append_cancel_left hd

/-- Two-sided cancellation for string append: a distinct middle part keeps
the whole strings distinct. -/
theorem middle_ne (t u : String) {a b : String} (h : ¬ a.data = b.data) :
    ¬ (t ++ a ++ u = t ++ b ++ u) := by
  intro he
  apply h
  have hd := congrArg String.data he
  simp only [String.data_append, List.append_assoc] at hd
  have h1 := List.append_cancel_left hd
  exact List.append_left_injective u.data h1

theorem optFalsy_false_of_pos {x : Option ℚ} (h : 0 < x.getD 0) :
    optFalsy x = false := by
  cases x with
  | none => simp at h
  | some q =>
    simp only [Option.getD_some] at h
    simp only [optFalsy, beq_eq_false_iff_ne, ne_eq]
    exact ne_of_gt h

/-- The plan walk only ever lowers the running minimum. -/
theorem planWalk_min_le (events : List CashEvent) (endDate cursor : Ymd)
    (balance minBalance : ℚ) :
    (planWalk events endDate cursor balance minBalance).2 ≤ minBalance := by
  induction cursor, balance, minBalance using planWalk.induct events endDate with
  | case1 cursor balance minBalance h =>
    rw [planWalk]
    simp [h]
  | case2 cursor balance minBalance h todaysEvents balance2 minBalance2 hlen ih =>
    rw [planWalk]
    simp only [dif_neg h, if_pos hlen]
    calc (planWalk events endDate (nextDay cursor) balance2 minBalance2).2 ≤ minBalance2 := ih
      _ ≤ minBalance := min_le_left _ _
  | case3 cursor balance minBalance h todaysEvents balance2 minBalance2 hlen ih =>
    rw [planWalk]
    simp only [dif_neg h, if_neg hlen]
    calc (planWalk events endDate (nextDay cursor) balance2 minBalance2).2 ≤ minBalance2 := ih
      _ ≤ minBalance := min_le_left _ _

/-! ## Claims -/

/-- C1: for every list of accounts, inflows, orders, expenses and settings
(and any `today` and horizon), the `CashPlanResult` returned by
`buildCashPlan` satisfies `cashGap ≥ 0`, and `cashGap = 0` if and only if
`minBalance ≥ 0`, both fields as returned (rounded to 2 decimal places). -/
theorem buildCashPlan_cashGap_nonneg_iff (today : Ymd) (accounts : List Account)
    (inflows : List IncomingPayment) (orders : List SupplierOrder)
    (expenses : List PlannedExpense) (settings : Option AppSettings) (horizonDays : Nat) :
    0 ≤ (buildCashPlan today accounts inflows orders expenses settings horizonDays).cashGap ∧
      ((buildCashPlan today accounts inflows orders expenses settings horizonDays).cashGap = 0 ↔
        0 ≤ (buildCashPlan today accounts inflows orders expenses settings horizonDays).minBalance) := by
  rcases hE : planEvents today accounts inflows orders expenses settings horizonDays with _ | ⟨e0, rest⟩
  · simp only [buildCashPlan, hE]
    have h := cashGap_form (toFixed2 (openingBalanceOf accounts))
    rwa [toFixed2_idem] at h
  · simp only [buildCashPlan, hE]
    exact cashGap_form _

/-- C10: the reported (rounded) minimum balance never exceeds the reported
(rounded) opening balance, because the running minimum starts at the
opening balance; in the empty-event case the two are equal. -/
theorem buildCashPlan_minBalance_le_opening (today : Ymd) (accounts : List Account)
    (inflows : List IncomingPayment) (orders : List SupplierOrder)
    (expenses : List PlannedExpense) (settings : Option AppSettings) (horizonDays : Nat) :
    (buildCashPlan today accounts inflows orders expenses settings horizonDays).minBalance ≤
      (buildCashPlan today accounts inflows orders expenses settings horizonDays).openingBalance ∧
      (planEvents today accounts inflows orders expenses settings horizonDays = [] →
        (buildCashPlan today accounts inflows orders expenses settings horizonDays).minBalance =
          (buildCashPlan today accounts inflows orders expenses settings horizonDays).openingBalance) := by
  rcases hE : planEvents today accounts inflows orders expenses settings horizonDays with _ | ⟨e0, rest⟩
  · simp [buildCashPlan, hE]
  · simp only [buildCashPlan, hE]
    constructor
    · exact toFixed2_mono (planWalk_min_le _ _ _ _ _)
    · exact fun h => absurd h (List.cons_ne_nil _ _)

/-- C6: when the merged event list is empty, `buildCashPlan` returns an
empty daily list, `minBalance` equal to the rounded opening balance, and
`cashGap = round2(max(0, -openingBalance))` — even when the opening
balance is negative. -/
theorem buildCashPlan_empty_events (today : Ymd) (accounts : List Account)
    (inflows : List IncomingPayment) (orders : List SupplierOrder)
    (expenses : List PlannedExpense) (settings : Option AppSettings) (horizonDays : Nat)
    (h : planEvents today accounts inflows orders expenses settings horizonDays = []) :
    buildCashPlan today accounts inflows orders expenses settings horizonDays =
      { openingBalance := toFixed2 (openingBalanceOf accounts)
        daily := []
        minBalance := toFixed2 (openingBalanceOf accounts)
        cashGap := toFixed2 (max 0 (-(openingBalanceOf accounts))) } := by
  simp only [buildCashPlan, h, gap_empty_form]

/-- C6 witness: one account with balance −5 and no other records: the
merged event list is empty, and the plan keeps a negative opening balance
with no daily entries and `cashGap = 5`. -/
theorem buildCashPlan_empty_events_witness :
    planEvents ⟨2025, 5, 10⟩ [{ id := "a1", name := "Main", balance := some (-5) }]
        [] [] [] none 120 = [] ∧
      buildCashPlan ⟨2025, 5, 10⟩ [{ id := "a1", name := "Main", balance := some (-5) }]
          [] [] [] none 120 =
        { openingBalance := -5, daily := [], minBalance := -5, cashGap := 5 } := by
  have hE : planEvents ⟨2025, 5, 10⟩ [{ id := "a1", name := "Main", balance := some (-5) }]
      [] [] [] none 120 = [] := by
    simp [planEvents, collectEvents, collectExpenseEvents]
  refine ⟨hE, ?_⟩
  rw [buildCashPlan_empty_events _ _ _ _ _ _ _ hE]
  have hop : openingBalanceOf [{ id := "a1", name := "Main", balance := some (-5) }] = -5 := by
    norm_num [openingBalanceOf, normalizeAmount]
  have h5 : toFixed2 (-5 : ℚ) = -5 := by
    have e : ((-500 : ℤ) : ℚ) / 100 = -5 := by norm_num
    rw [← e, toFixed2_int_div, e]
  have h5b : toFixed2 (max 0 (-(-5 : ℚ))) = 5 := by
    have e : ((500 : ℤ) : ℚ) / 100 = 5 := by norm_num
    have e2 : max (0 : ℚ) (-(-5 : ℚ)) = 5 := by norm_num
    rw [e2, ← e, toFixed2_int_div, e]
  rw [hop, h5, h5b]

/-- C9: `projectBalanceOnDate` returns `null` exactly on an empty daily
list; otherwise it returns the balance of the (first) `DailyStat` with the
target date when one exists, and the balance of the last `DailyStat`
otherwise — no interpolation, no nearest-day lookup. -/
theorem projectBalanceOnDate_spec (plan : CashPlanResult) (targetDate : Ymd) :
    (projectBalanceOnDate plan targetDate = none ↔ plan.daily = []) ∧
    (∀ d, plan.daily.find? (fun day => day.date == targetDate) = some d →
      projectBalanceOnDate plan targetDate = some d.balance) ∧
    (plan.daily ≠ [] → plan.daily.find? (fun day => day.date == targetDate) = none →
      projectBalanceOnDate plan targetDate =
        plan.daily.getLast?.map (fun day => day.balance) ∧
        (plan.daily.getLast?.map (fun day => day.balance)).isSome = true) := by
  by_cases hd : plan.daily = []
  · refine ⟨by simp [projectBalanceOnDate, hd], ?_, ?_⟩
    · intro d hfind
      rw [hd] at hfind
      simp at hfind
    · intro hne
      exact absurd hd hne
  · have hne : plan.daily.isEmpty = false := List.isEmpty_eq_false.mpr hd
    cases hF : plan.daily.find? (fun day => day.date == targetDate) with
    | some d =>
      have hv : projectBalanceOnDate plan targetDate = some d.balance := by
        simp [projectBalanceOnDate, hne, hF]
      refine ⟨?_, ?_, ?_⟩
      · rw [hv]
        simp [hd]
      · intro d2 hfind
        rw [hv, Option.some_inj.mp hfind]
      · intro _ hcontra
        exact nomatch hcontra
    | none =>
      have hsome : plan.daily.getLast?.isSome = true := List.getLast?_isSome.mpr hd
      obtain ⟨lastDay, hlast⟩ := Option.isSome_iff_exists.mp hsome
      have hv : projectBalanceOnDate plan targetDate = some lastDay.balance := by
        simp [projectBalanceOnDate, hne, hF, hlast]
      refine ⟨?_, ?_, ?_⟩
      · rw [hv]
        simp [hd]
      · intro d2 hfind
        exact nomatch hfind
      · intro _ _
        rw [hv, hlast]
        simp

/-- C8 counterexample: with a configured CNY rate of `+Infinity` (a value
the JS `number` type admits), `currencyRate` returns `+Infinity`: the
claimed "never non-finite / non-finite coerced to 1" fails, because the
source only checks `rate > 0` and `Infinity > 0` is `true` in JS. -/
theorem currencyRateJS_posInf_cex :
    currencyRateJS Currency.CNY (some { cnyRate := JSNum.posInf }) = JSNum.posInf ∧
      (currencyRateJS Currency.CNY (some { cnyRate := JSNum.posInf })).isFinite = false := by
  constructor <;> rfl

/-- C8 amended: for every currency and optional settings whose configured
CNY rate is not `+Infinity`, `currencyRate` returns a positive finite
number, never zero: RUB maps to 1, a positive (finite) CNY rate is
returned as is, and a `NaN`, `-Infinity` or non-positive rate is coerced
to 1. -/
theorem currencyRateJS_amended (c : Currency) (s : Option JSAppSettings)
    (h : ∀ st : JSAppSettings, c = Currency.CNY → s = some st → st.cnyRate ≠ JSNum.posInf) :
    ∃ q : ℚ, currencyRateJS c s = JSNum.val q ∧ 0 < q ∧
      (c = Currency.RUB → q = 1) ∧
      (∀ st : JSAppSettings, c = Currency.CNY → s = some st →
        st.cnyRate.gtZero = false → q = 1) ∧
      (∀ r : ℚ, c = Currency.CNY → s = some ({ cnyRate := JSNum.val r } : JSAppSettings) →
        0 < r → q = r) := by
  cases c with
  | RUB =>
    refine ⟨1, rfl, one_pos, fun _ => rfl, ?_, ?_⟩
    · intro st hc hs hz
      simp at hc
    · intro r hc hs hr
      simp at hc
  | CNY =>
    cases s with
    | none =>
      refine ⟨1, rfl, one_pos, ?_, ?_, ?_⟩
      · intro hc
        simp at hc
      · intro st _ hs _
        simp at hs
      · intro r _ hs _
        simp at hs
    | some st =>
      cases hrate : st.cnyRate with
      | nan =>
        refine ⟨1, ?_, one_pos, ?_, ?_, ?_⟩
        · simp [currencyRateJS, hrate, JSNum.gtZero]
        · intro hc
          simp at hc
        · intro st2 _ hs hz
          rfl
        · intro r _ hs hr
          rw [Option.some_inj.mp hs] at hrate
          have h3 : JSNum.val r = JSNum.nan := hrate
          cases h3
      | posInf => exact absurd hrate (h st rfl rfl)
      | negInf =>
        refine ⟨1, ?_, one_pos, ?_, ?_, ?_⟩
        · simp [currencyRateJS, hrate, JSNum.gtZero]
        · intro hc
          simp at hc
        · intro st2 _ hs hz
          rfl
        · intro r _ hs hr
          rw [Option.some_inj.mp hs] at hrate
          have h3 : JSNum.val r = JSNum.negInf := hrate
          cases h3
      | val q =>
        by_cases hq : 0 < q
        · refine ⟨q, ?_, hq, ?_, ?_, ?_⟩
          · simp [currencyRateJS, hrate, JSNum.gtZero, hq]
          · intro hc
            simp at hc
          · intro st2 _ hs hz
            rw [← Option.some_inj.mp hs, hrate] at hz
            simp [JSNum.gtZero] at hz
            exact absurd hq (not_lt.mpr hz)
          · intro r _ hs hr
            rw [Option.some_inj.mp hs] at hrate
            have h3 : JSNum.val r = JSNum.val q := hrate
            injection h3 with h4
            exact h4.symm
        · refine ⟨1, ?_, one_pos, ?_, ?_, ?_⟩
          · simp [currencyRateJS, hrate, JSNum.gtZero, hq]
          · intro hc
            simp at hc
          · intro st2 _ hs hz
            rfl
          · intro r _ hs hr
            rw [Option.some_inj.mp hs] at hrate
            have h3 : JSNum.val r = JSNum.val q := hrate
            injection h3 with h4
            rw [h4] at hr
            exact absurd hr hq

/-- C8 amended witness: a finite configured rate of 7 is returned as is. -/
theorem currencyRateJS_amended_witness :
    ∃ q : ℚ,
      currencyRateJS Currency.CNY (some ({ cnyRate := JSNum.val 7 } : JSAppSettings)) =
        JSNum.val q ∧ 0 < q ∧
      (Currency.CNY = Currency.RUB → q = 1) ∧
      (∀ st : JSAppSettings, Currency.CNY = Currency.CNY →
        some ({ cnyRate := JSNum.val 7 } : JSAppSettings) = some st →
        st.cnyRate.gtZero = false → q = 1) ∧
      (∀ r : ℚ, Currency.CNY = Currency.CNY →
        some ({ cnyRate := JSNum.val 7 } : JSAppSettings) =
          some ({ cnyRate := JSNum.val r } : JSAppSettings) →
        0 < r → q = r) :=
  currencyRateJS_amended Currency.CNY (some ({ cnyRate := JSNum.val 7 } : JSAppSettings))
    (fun st _ hs => by
      rw [← Option.some_inj.mp hs]
      decide)

/-- C7 (evidence for the code bug): the sort comparator of `buildCashPlan`
returns −1 for both orderings of two distinct events with equal dates — it
never returns 0, so it is not a consistent comparison function and
ECMAScript leaves the relative order of equal-date events
implementation-defined (V8's TimSort reverses such runs). -/
theorem jsSortCompare_inconsistent_on_tie :
    jsSortCompare
        { date := ⟨2025, 5, 10⟩, type := CashEventType.inflow, amount := 1,
          description := "A", source := none }
        { date := ⟨2025, 5, 10⟩, type := CashEventType.inflow, amount := 2,
          description := "B", source := none } = -1 ∧
      jsSortCompare
        { date := ⟨2025, 5, 10⟩, type := CashEventType.inflow, amount := 2,
          description := "B", source := none }
        { date := ⟨2025, 5, 10⟩, type := CashEventType.inflow, amount := 1,
          description := "A", source := none } = -1 := by
  constructor <;> rfl

/-- C3: an incoming payment produces no event exactly when it is a stale
planned inflow (`kind = planned` and `expected_date < today`); otherwise
it produces exactly one inflow event dated at `expected_date` with the
normalized amount.  A stale planned inflow leaves the whole built plan
unchanged (it appears in no `DailyStat` and affects no balance). -/
theorem inflowEvent_stale_skip (today : Ymd) (p : IncomingPayment) :
    (inflowEvent today p = none ↔
      p.kind = IncomingKind.planned ∧ Ymd.ltb p.expected_date today = true) ∧
    (∀ e, inflowEvent today p = some e →
      e.date = p.expected_date ∧ e.amount = normalizeAmount p.amount ∧
        e.type = CashEventType.inflow) ∧
    (p.kind = IncomingKind.planned → Ymd.ltb p.expected_date today = true →
      ∀ (accounts : List Account) (pre post : List IncomingPayment)
        (orders : List SupplierOrder) (expenses : List PlannedExpense)
        (settings : Option AppSettings) (horizonDays : Nat),
        buildCashPlan today accounts (pre ++ p :: post) orders expenses settings horizonDays =
          buildCashPlan today accounts (pre ++ post) orders expenses settings horizonDays) := by
  by_cases hc : p.kind = IncomingKind.planned ∧ Ymd.ltb p.expected_date today = true
  · refine ⟨by simp [inflowEvent, hc], ?_, ?_⟩
    · intro e he
      simp [inflowEvent, hc] at he
    · intro _ _ accounts pre post orders expenses settings horizonDays
      have hnone : inflowEvent today p = none := by simp [inflowEvent, hc]
      have hpe : planEvents today accounts (pre ++ p :: post) orders expenses settings
            horizonDays =
          planEvents today accounts (pre ++ post) orders expenses settings horizonDays := by
        simp only [planEvents, collectEvents, List.filterMap_append, List.filterMap_cons,
          hnone]
      rw [buildCashPlan, buildCashPlan, hpe]
  · refine ⟨by simp [inflowEvent, hc], ?_, ?_⟩
    · intro e he
      simp only [inflowEvent, if_neg hc] at he
      rw [← Option.some_inj.mp he]
      exact ⟨rfl, rfl, rfl⟩
    · intro hk hlt
      exact absurd ⟨hk, hlt⟩ hc

/-- C2: for every supplier order (and rate table), the collector emits the
deposit outflow event (amount `-deposit`, dated at `deposit_date`, or
`today` when that is missing) iff `deposit > 0` and the deposit-paid flag
is falsy; it emits the remainder outflow event (amount
`-(total·rate − deposit)`, dated at `due_date`) iff that remainder is
positive; and an order whose deposit is already paid contributes no
deposit event at all. -/
theorem orderEvents_deposit_remainder_iff (today : Ymd) (rates : Currency → ℚ)
    (o : SupplierOrder) :
    let rate := rates (o.currency.getD Currency.RUB)
    let deposit := normalizeAmount o.deposit_amount * rate
    let remainder := normalizeAmount o.total_amount * rate - deposit
    let depEv : CashEvent :=
      { date := o.deposit_date.getD today, type := CashEventType.outflow,
        amount := -deposit,
        description := o.title ++ " — аванс поставщику" ++ supplierTag o.supplier_name,
        source := some o.id }
    let remEv : CashEvent :=
      { date := o.due_date, type := CashEventType.outflow, amount := -remainder,
        description := o.title ++ " — финальный платёж" ++ supplierTag o.supplier_name,
        source := some o.id }
    (depEv ∈ orderEvents today rates o ↔
      0 < deposit ∧ o.deposit_paid.getD false = false) ∧
    (remEv ∈ orderEvents today rates o ↔ 0 < remainder) ∧
    (o.deposit_paid = some true →
      ∀ e ∈ orderEvents today rates o, e.description ≠ depEv.description) := by
  intro rate deposit remainder depEv remEv
  have hdesc : depEv.description ≠ remEv.description :=
    middle_ne o.title (supplierTag o.supplier_name) (by decide)
  have hOE : orderEvents today rates o =
      (if 0 < deposit ∧ (o.deposit_paid.getD false) = false then [depEv] else []) ++
        (if 0 < remainder then [remEv] else []) := rfl
  refine ⟨?_, ?_, ?_⟩
  · constructor
    · intro hmem
      rw [hOE] at hmem
      rcases List.mem_append.mp hmem with h1 | h2
      · by_cases hcd : 0 < deposit ∧ o.deposit_paid.getD false = false
        · exact hcd
        · rw [if_neg hcd] at h1
          simp at h1
      · by_cases hcr : 0 < remainder
        · rw [if_pos hcr] at h2
          exact absurd (congrArg CashEvent.description (List.mem_singleton.mp h2)) hdesc
        · rw [if_neg hcr] at h2
          simp at h2
    · intro hcd
      rw [hOE]
      exact List.mem_append.mpr (Or.inl (by rw [if_pos hcd]; exact List.mem_singleton.mpr rfl))
  · constructor
    · intro hmem
      rw [hOE] at hmem
      rcases List.mem_append.mp hmem with h1 | h2
      · by_cases hcd : 0 < deposit ∧ o.deposit_paid.getD false = false
        · rw [if_pos hcd] at h1
          exact absurd (congrArg CashEvent.description (List.mem_singleton.mp h1)).symm hdesc
        · rw [if_neg hcd] at h1
          simp at h1
      · by_cases hcr : 0 < remainder
        · exact hcr
        · rw [if_neg hcr] at h2
          simp at h2
    · intro hcr
      rw [hOE]
      exact List.mem_append.mpr (Or.inr (by rw [if_pos hcr]; exact List.mem_singleton.mpr rfl))
  · intro hpaid e hmem
    have hcd : ¬ (0 < deposit ∧ o.deposit_paid.getD false = false) := by
      rw [hpaid]
      simp
    rw [hOE, if_neg hcd] at hmem
    simp only [List.nil_append] at hmem
    by_cases hcr : 0 < remainder
    · rw [if_pos hcr] at hmem
      rw [congrArg CashEvent.description (List.mem_singleton.mp hmem)]
      exact fun hcontra => hdesc hcontra.symm
    · rw [if_neg hcr] at hmem
      simp at hmem

/-- The month loop emits, in order, the per-month events of every month
cursor it visits. -/
theorem expenseLoop_eq_flatMap (expense : PlannedExpense) (today horizonLimit : Ymd)
    (primaryDay : Nat) (secondaryDay : Option Nat)
    (primaryAmount secondaryAmount : Option ℚ) (hasSplit : Bool)
    (lastMonth cursor : Ymd) :
    expenseLoop expense today horizonLimit primaryDay secondaryDay primaryAmount
        secondaryAmount hasSplit lastMonth cursor =
      (monthSeq lastMonth cursor).flatMap
        (expensePerMonth expense today horizonLimit primaryDay secondaryDay
          primaryAmount secondaryAmount hasSplit) := by
  induction cursor using monthSeq.induct lastMonth with
  | case1 cursor h =>
    rw [expenseLoop, monthSeq]
    simp [h]
  | case2 cursor h ih =>
    rw [expenseLoop, monthSeq]
    simp only [dif_neg h, List.flatMap_cons]
    rw [ih]

/-- Every event a month iteration emits is either the primary-day event
(amount `-primaryAmount`, primary-day date, "part 1/2" or plain
description) or the secondary-day event (amount `-secondaryAmount`,
secondary-day date, "part 2/2" description), the latter only when the
split is active and the secondary amount positive. -/
theorem expensePerMonth_mem {expense : PlannedExpense} {today horizonLimit : Ymd}
    {primaryDay : Nat} {secondaryDay : Option Nat}
    {primaryAmount secondaryAmount : Option ℚ} {hasSplit : Bool} {cursor : Ymd}
    {e : CashEvent}
    (he : e ∈ expensePerMonth expense today horizonLimit primaryDay secondaryDay
      primaryAmount secondaryAmount hasSplit cursor) :
    (e.amount = -(primaryAmount.getD 0) ∧ e.date = resolveMonthlyDate cursor primaryDay ∧
      (e.description = expense.title ++ " — плановый расход" ++ " (часть 1/2)" ∨
        e.description = expense.title ++ " — плановый расход" ++ "")) ∨
    ((hasSplit && secondaryDay.getD 0 != 0 && decide (0 < secondaryAmount.getD 0)) = true ∧
      e.amount = -(secondaryAmount.getD 0) ∧
      e.date = resolveMonthlyDate cursor (secondaryDay.getD 0) ∧
      e.description = expense.title ++ " — плановый расход (часть 2/2)") := by
  simp only [expensePerMonth, List.mem_append] at he
  rcases he with h1 | h2
  · left
    split at h1
    · rw [List.mem_singleton] at h1
      subst h1
      refine ⟨rfl, rfl, ?_⟩
      split
      · exact Or.inl rfl
      · exact Or.inr rfl
    · simp at h1
  · right
    split at h2
    case isTrue hse =>
      split at h2
      · rw [List.mem_singleton] at h2
        subst h2
        exact ⟨hse, rfl, rfl, rfl⟩
      · simp at h2
    case isFalse hse =>
      simp at h2

/-- Every event of a processed expense comes from some visited month. -/
theorem expenseEvents_mem {today horizonLimit firstMonth lastMonth : Ymd}
    {expense : PlannedExpense} {e : CashEvent}
    (he : e ∈ expenseEvents today horizonLimit firstMonth lastMonth expense) :
    ∃ primaryDay, normalizeDay expense.day_primary = some primaryDay ∧
      ∃ ms ∈ monthSeq lastMonth firstMonth,
        e ∈ expensePerMonth expense today horizonLimit primaryDay
          (normalizeDay expense.day_secondary)
          (resolveAmounts expense (normalizeDay expense.day_secondary).isSome).1
          (resolveAmounts expense (normalizeDay expense.day_secondary).isSome).2
          (normalizeDay expense.day_secondary).isSome ms := by
  cases hpd : normalizeDay expense.day_primary with
  | none =>
    simp only [expenseEvents, hpd] at he
    simp at he
  | some pd =>
    simp only [expenseEvents, hpd] at he
    split at he
    · simp at he
    · rw [expenseLoop_eq_flatMap] at he
      obtain ⟨ms, hms, hem⟩ := List.mem_flatMap.mp he
      exact ⟨pd, rfl, ms, hms, hem⟩

/-- An emitted event carrying the "(part 2/2)" description is a
secondary-day event: the split is active, the resolved secondary amount is
positive, and the event's amount is its negation. -/
theorem expenseEvents_secondary_desc {today horizonLimit firstMonth lastMonth : Ymd}
    {expense : PlannedExpense} {e : CashEvent}
    (he : e ∈ expenseEvents today horizonLimit firstMonth lastMonth expense)
    (hdesc : e.description = expense.title ++ " — плановый расход (часть 2/2)") :
    (normalizeDay expense.day_secondary).isSome = true ∧
      0 < ((resolveAmounts expense (normalizeDay expense.day_secondary).isSome).2).getD 0 ∧
      e.amount =
        -(((resolveAmounts expense (normalizeDay expense.day_secondary).isSome).2).getD 0) := by
  obtain ⟨pd, hpd, ms, hms, hem⟩ := expenseEvents_mem he
  rcases expensePerMonth_mem hem with ⟨ha, hd, hdes⟩ | ⟨hse, ha, hd, hdes⟩
  · exfalso
    rcases hdes with h1 | h1
    · rw [hdesc, String.append_assoc] at h1
      exact append_left_ne expense.title (by decide) h1
    · rw [hdesc, String.append_assoc] at h1
      exact append_left_ne expense.title (by decide) h1
  · simp only [Bool.and_eq_true, decide_eq_true_eq] at hse
    exact ⟨hse.1.1, hse.2, ha⟩

/-- C4: for every expense with a valid `day_primary` and every month the
projection window visits, the primary occurrence date is `day_primary`
clamped to that month's actual day count — same year and month as the
visited month start, never the following month — and, when that date lies
in `[today, today + horizonDays]` and the resolved primary amount is
positive, the expense emits an event on exactly that date. -/
theorem expenseEvents_day_clamping (today : Ymd) (horizonDays : Nat)
    (expense : PlannedExpense) (primaryDay : Nat)
    (hday : normalizeDay expense.day_primary = some primaryDay)
    (ms : Ymd)
    (hms : ms ∈ monthSeq (startOfMonth (addDays today horizonDays)) (startOfMonth today)) :
    (resolveMonthlyDate ms primaryDay).year = ms.year ∧
    (resolveMonthlyDate ms primaryDay).month = ms.month ∧
    (resolveMonthlyDate ms primaryDay).day = min primaryDay (daysInMonth ms.year ms.month) ∧
    (¬ isAfter today (resolveMonthlyDate ms primaryDay) = true →
      ¬ isAfter (resolveMonthlyDate ms primaryDay) (addDays today horizonDays) = true →
      0 < ((resolveAmounts expense (normalizeDay expense.day_secondary).isSome).1).getD 0 →
      ∃ e ∈ expenseEvents today (addDays today horizonDays) (startOfMonth today)
          (startOfMonth (addDays today horizonDays)) expense,
        e.date = resolveMonthlyDate ms primaryDay ∧
        e.amount =
          -(((resolveAmounts expense (normalizeDay expense.day_secondary).isSome).1).getD 0)) := by
  refine ⟨rfl, rfl, rfl, ?_⟩
  intro h1 h2 h3
  have hfal : optFalsy (resolveAmounts expense (normalizeDay expense.day_secondary).isSome).1
      = false := optFalsy_false_of_pos h3
  have hEE : expenseEvents today (addDays today horizonDays) (startOfMonth today)
      (startOfMonth (addDays today horizonDays)) expense =
      expenseLoop expense today (addDays today horizonDays) primaryDay
        (normalizeDay expense.day_secondary)
        (resolveAmounts expense (normalizeDay expense.day_secondary).isSome).1
        (resolveAmounts expense (normalizeDay expense.day_secondary).isSome).2
        (normalizeDay expense.day_secondary).isSome
        (startOfMonth (addDays today horizonDays)) (startOfMonth today) := by
    simp [expenseEvents, hday, hfal]
  rw [hEE, expenseLoop_eq_flatMap]
  have hpm : ({
      date := resolveMonthlyDate ms primaryDay,
      type := CashEventType.outflow,
      amount := -(((resolveAmounts expense (normalizeDay expense.day_secondary).isSome).1).getD 0),
      description := expense.title ++ " — плановый расход" ++
        (if ((normalizeDay expense.day_secondary).isSome &&
            (normalizeDay expense.day_secondary).getD 0 != 0 &&
            decide (0 < ((resolveAmounts expense
              (normalizeDay expense.day_secondary).isSome).2).getD 0)) = true
         then " (часть 1/2)" else ""),
      source := some expense.id } : CashEvent) ∈ expensePerMonth expense today (addDays today horizonDays)
        primaryDay (normalizeDay expense.day_secondary)
        (resolveAmounts expense (normalizeDay expense.day_secondary).isSome).1
        (resolveAmounts expense (normalizeDay expense.day_secondary).isSome).2
        (normalizeDay expense.day_secondary).isSome ms := by
    simp only [expensePerMonth, List.mem_append]
    left
    rw [if_pos ⟨h1, h2, h3⟩]
    exact List.mem_singleton.mpr rfl
  exact ⟨_, List.mem_flatMap.mpr ⟨ms, hms, hpm⟩, rfl, rfl⟩

/-- C4 witness: an expense with `day_primary = 31`, today 2025-04-25 and a
6-day horizon: the April month start is visited, and April (30 days)
clamps the occurrence to 2025-04-30 — same month, day 30. -/
theorem expenseEvents_day_clamping_witness :
    (resolveMonthlyDate ⟨2025, 4, 1⟩ 31).year = (⟨2025, 4, 1⟩ : Ymd).year ∧
    (resolveMonthlyDate ⟨2025, 4, 1⟩ 31).month = (⟨2025, 4, 1⟩ : Ymd).month ∧
    (resolveMonthlyDate ⟨2025, 4, 1⟩ 31).day =
      min 31 (daysInMonth (⟨2025, 4, 1⟩ : Ymd).year (⟨2025, 4, 1⟩ : Ymd).month) ∧
    (¬ isAfter ⟨2025, 4, 25⟩ (resolveMonthlyDate ⟨2025, 4, 1⟩ 31) = true →
      ¬ isAfter (resolveMonthlyDate ⟨2025, 4, 1⟩ 31) (addDays ⟨2025, 4, 25⟩ 6) = true →
      0 < ((resolveAmounts
          { id := "e1", title := "Rent", amount := some 100, amount_primary := none,
            amount_secondary := none, day_primary := some 31, day_secondary := none }
          (normalizeDay (none : Option Int)).isSome).1).getD 0 →
      ∃ e ∈ expenseEvents ⟨2025, 4, 25⟩ (addDays ⟨2025, 4, 25⟩ 6)
          (startOfMonth ⟨2025, 4, 25⟩) (startOfMonth (addDays ⟨2025, 4, 25⟩ 6))
          { id := "e1", title := "Rent", amount := some 100, amount_primary := none,
            amount_secondary := none, day_primary := some 31, day_secondary := none },
        e.date = resolveMonthlyDate ⟨2025, 4, 1⟩ 31 ∧
        e.amount = -(((resolveAmounts
            { id := "e1", title := "Rent", amount := some 100, amount_primary := none,
              amount_secondary := none, day_primary := some 31, day_secondary := none }
            (normalizeDay (none : Option Int)).isSome).1).getD 0)) :=
  expenseEvents_day_clamping ⟨2025, 4, 25⟩ 6
    { id := "e1", title := "Rent", amount := some 100, amount_primary := none,
      amount_secondary := none, day_primary := some 31, day_secondary := none }
    31 (by decide) ⟨2025, 4, 1⟩
    (by
      rw [monthSeq]
      rw [dif_neg (by decide)]
      exact List.mem_cons_self _ _)

/-- C5: split-amount reconciliation.  With `day_secondary` set and only
`amount_primary` given, the resolved secondary amount is
`amount − amount_primary` and every emitted "(part 2/2)" event carries
`-(amount − amount_primary)`; symmetrically, with only `amount_secondary`
given the resolved primary amount is `amount − amount_secondary`; and with
both split amounts absent every emitted event charges the full amount (on
the primary day). -/
theorem expenseEvents_split_reconciliation (today horizonLimit firstMonth lastMonth : Ymd)
    (expense : PlannedExpense) :
    (∀ p : ℚ, expense.amount_primary = some p → expense.amount_secondary = none →
      (resolveAmounts expense true).2 =
        some (normalizeAmount expense.amount - normalizeAmount expense.amount_primary) ∧
      ∀ e ∈ expenseEvents today horizonLimit firstMonth lastMonth expense,
        e.description = expense.title ++ " — плановый расход (часть 2/2)" →
        e.amount = -(normalizeAmount expense.amount - normalizeAmount expense.amount_primary)) ∧
    (∀ s2 : ℚ, expense.amount_secondary = some s2 → expense.amount_primary = none →
      (resolveAmounts expense true).1 =
        some (normalizeAmount expense.amount - normalizeAmount expense.amount_secondary)) ∧
    (expense.amount_primary = none → expense.amount_secondary = none →
      ∀ e ∈ expenseEvents today horizonLimit firstMonth lastMonth expense,
        e.amount = -(normalizeAmount expense.amount)) := by
  refine ⟨?_, ?_, ?_⟩
  · intro p hp hs
    have hres : (resolveAmounts expense true).2 =
        some (normalizeAmount expense.amount - normalizeAmount expense.amount_primary) := by
      simp [resolveAmounts, hp, hs]
    refine ⟨hres, ?_⟩
    intro e he hdesc
    obtain ⟨hsplit, hpos, ha⟩ := expenseEvents_secondary_desc he hdesc
    rw [hsplit, hres] at ha
    simpa using ha
  · intro s2 hs hp
    simp [resolveAmounts, hp, hs]
  · intro hp hs e he
    obtain ⟨pd, hpd, ms, hms, hem⟩ := expenseEvents_mem he
    have hres1 : ∀ b, (resolveAmounts expense b).1 = some (normalizeAmount expense.amount) := by
      intro b
      cases b <;> simp [resolveAmounts, hp, hs]
    have hres2 : ∀ b, ((resolveAmounts expense b).2).getD 0 = 0 := by
      intro b
      cases b <;> simp [resolveAmounts, hp, hs]
    rcases expensePerMonth_mem hem with ⟨ha, _, _⟩ | ⟨hse, ha, _, _⟩
    · rw [hres1] at ha
      simpa using ha
    · simp [hres2] at hse
